import Mathlib

/-!
# The Tailwind configuration record of `tailwind.config.js`

The source file is one statement, `module.exports = { ... }`: an object
literal built from string literals, array literals and nested object
literals. This development embeds that literal as a value of `JSValue`,
together with the operations a consumer applies to it (own-property lookup,
key enumeration, serialisation and parsing), and proves the structural
properties of the record.
-/

namespace TailwindConfig

/-! ## Data model -/

/-- The JavaScript values that occur in the configuration literal: strings,
arrays, and objects written as literals. An object literal is kept as its
list of `key: value` entries in source order. -/
inductive JSValue where
  | str (s : String)
  | arr (items : List JSValue)
  | obj (fields : List (String × JSValue))

namespace JSValue

/-- Own-property lookup among the entries of an object literal. When a key is
written more than once in a literal, the entry written last is the one the
object holds. -/
def lookup (k : String) : List (String × JSValue) → Option JSValue
  | [] => none
  | (k', v) :: rest =>
    match lookup k rest with
    | some w => some w
    | none => if k' = k then some v else none

/-- Property access `o[k]` on own properties; a value that is not an object,
or an object without the key, yields no entry. -/
def get : JSValue → String → Option JSValue
  | obj fields, k => lookup k fields
  | _, _ => none

/-- Chained property access `o[k₁][k₂]...`. -/
def getPath (v : JSValue) : List String → Option JSValue
  | [] => some v
  | k :: ks =>
    match v.get k with
    | some w => getPath w ks
    | none => none

/-- The keys of an object literal, in the order written. -/
def keys : JSValue → List String
  | obj fields => fields.map Prod.fst
  | _ => []

/-- The string held by a string value. -/
def asString : JSValue → Option String
  | str s => some s
  | _ => none

mutual
/-- Every path (sequence of keys from the root) at which an object sits. -/
def mappingPaths : JSValue → List (List String)
  | str _ => []
  | arr _ => []
  | obj fields => [] :: mappingPathsFields fields
/-- The object paths below each entry of an object literal. -/
def mappingPathsFields : List (String × JSValue) → List (List String)
  | [] => []
  | (k, v) :: rest => (mappingPaths v).map (k :: ·) ++ mappingPathsFields rest
end

mutual
/-- Every path from the root that ends in an entry whose key is `key`. -/
def keyPaths (key : String) : JSValue → List (List String)
  | str _ => []
  | arr _ => []
  | obj fields => keyPathsFields key fields
/-- The paths ending in `key` through each entry of an object literal. -/
def keyPathsFields (key : String) : List (String × JSValue) → List (List String)
  | [] => []
  | (k, v) :: rest =>
    (if k = key then [[k]] else []) ++ (keyPaths key v).map (k :: ·)
      ++ keyPathsFields key rest
end

end JSValue

open JSValue

/-! ## The exported record -/

/-- The value assigned to `module.exports` in `tailwind.config.js`. -/
def exports : JSValue :=
  obj [
    ("content", obj [
      ("files", arr [str "./**/*.rs"])
    ]),
    ("theme", obj [
      ("extend", obj [
        ("maxWidth", obj [
          ("1/4", str "25%"),
          ("1/2", str "50%"),
          ("3/4", str "75%")
        ])
      ])
    ]),
    ("plugins", arr []),
    ("variants", obj [
      ("overflow", arr [str "hover", str "group-hover"]),
      ("visibility", arr [str "hover", str "group-hover"])
    ])
  ]


/-! ## Evaluation of an object literal

Evaluating an object literal defines its properties one by one. A key that is
already present keeps its place and takes the new value; the own keys of the
resulting object are enumerated with array-index keys first, in ascending
numeric order, followed by the other keys in the order of definition. -/

/-- Defines property `k` with value `v`: replaces the value in place when the
key is present, appends the entry otherwise. -/
def setField (k : String) (v : JSValue) : List (String × JSValue) → List (String × JSValue)
  | [] => [(k, v)]
  | (k', v') :: rest => if k' = k then (k', v) :: rest else (k', v') :: setField k v rest

/-- Defines the entries of a literal from left to right. -/
def defineFields (fields : List (String × JSValue)) : List (String × JSValue) :=
  fields.foldl (fun acc e => setField e.1 e.2 acc) []

/-- The numeric value of a decimal digit string. -/
def digitsValue (cs : List Char) : Nat :=
  cs.foldl (fun n c => 10 * n + (c.toNat - 48)) 0

/-- A key is an array index when it is the canonical decimal form of an
integer below `2^32 - 1`. -/
def isArrayIndex (k : String) : Bool :=
  match k.toList with
  | [] => false
  | c :: cs =>
    (c :: cs).all Char.isDigit && (c != '0' || cs.isEmpty)
      && decide (digitsValue (c :: cs) < 4294967295)

/-- Inserts an array-index entry into a list of such entries sorted by index. -/
def insertIndexed (e : String × JSValue) : List (String × JSValue) → List (String × JSValue)
  | [] => [e]
  | e' :: rest =>
    if digitsValue e.1.toList ≤ digitsValue e'.1.toList then e :: e' :: rest
    else e' :: insertIndexed e rest

/-- Own-property order: array-index keys ascending, then the other keys in
definition order. -/
def orderFields (fields : List (String × JSValue)) : List (String × JSValue) :=
  (fields.filter (fun e => isArrayIndex e.1)).foldr insertIndexed []
    ++ fields.filter (fun e => !isArrayIndex e.1)

/-- The entries of the object that an entry list denotes. -/
def normalizeFields (fields : List (String × JSValue)) : List (String × JSValue) :=
  orderFields (defineFields fields)

mutual
/-- The object structure a literal evaluates to. -/
def evalLiteral : JSValue → JSValue
  | str s => str s
  | arr items => arr (evalItems items)
  | obj fields => obj (normalizeFields (evalFields fields))
/-- Evaluates the elements of an array literal. -/
def evalItems : List JSValue → List JSValue
  | [] => []
  | v :: rest => evalLiteral v :: evalItems rest
/-- Evaluates the values of the entries of an object literal. -/
def evalFields : List (String × JSValue) → List (String × JSValue)
  | [] => []
  | (k, v) :: rest => (k, evalLiteral v) :: evalFields rest
end

/-! ## Syntax of the string values -/

/-- Scans the delimiters of a glob pattern: every backslash escapes a
character, every `[` class is closed by `]`, and braces are balanced.
`depth` is the number of open braces, `inClass` whether a class is open. -/
def globDelimsClosed : List Char → Nat → Bool → Bool
  | [], depth, inClass => depth == 0 && !inClass
  | c :: rest, depth, inClass =>
    if c = '\\' then
      match rest with
      | [] => false
      | _ :: rest' => globDelimsClosed rest' depth inClass
    else if inClass then globDelimsClosed rest depth (c != ']')
    else if c = '[' then globDelimsClosed rest depth true
    else if c = '{' then globDelimsClosed rest (depth + 1) false
    else if c = '}' then depth != 0 && globDelimsClosed rest (depth - 1) false
    else globDelimsClosed rest depth false

/-- Splits a pattern into its path segments at `/`. -/
def pathSegments : List Char → List (List Char)
  | [] => [[]]
  | c :: rest =>
    if c = '/' then [] :: pathSegments rest
    else
      match pathSegments rest with
      | [] => [[c]]
      | seg :: segs => (c :: seg) :: segs

/-- Whether two `*` stand next to each other. -/
def hasDoubleStar : List Char → Bool
  | a :: b :: rest => (a == '*' && b == '*') || hasDoubleStar (b :: rest)
  | _ => false

/-- A segment is a lone globstar `**`, or has no two adjacent `*`. -/
def segmentOk (seg : List Char) : Bool :=
  seg == ['*', '*'] || !hasDoubleStar seg

/-- Modelled from the spec: the glob syntax check belongs to the consuming
tool, which is not part of this repository; the spec asks for patterns that
are non-empty strings and syntactically valid globs. A pattern is accepted
here when it is non-empty, its escapes, classes and braces are closed, and
`**` only occurs as a whole path segment. -/
def isValidGlob (s : String) : Bool :=
  !s.toList.isEmpty && globDelimsClosed s.toList 0 false
    && (pathSegments s.toList).all segmentOk

/-- A percentage: a non-empty run of decimal digits followed by `%`. -/
def isPercentage (s : String) : Bool :=
  match s.toList.reverse with
  | c :: ds => c == '%' && !ds.isEmpty && ds.all Char.isDigit
  | [] => false

/-- Reads a non-empty run of decimal digits as a natural number. -/
def parseNat (cs : List Char) : Option Nat :=
  if !cs.isEmpty && cs.all Char.isDigit then some (digitsValue cs) else none

/-- Reads `n/d` as the pair `(n, d)`. -/
def parseFraction (s : String) : Option (Nat × Nat) :=
  match parseNat (s.toList.takeWhile (· != '/')),
        (s.toList.dropWhile (· != '/')) with
  | some n, c :: ds =>
    if c = '/' then (parseNat ds).map (fun d => (n, d)) else none
  | _, _ => none

/-- Reads `p%` as the number `p`. -/
def parsePercent (s : String) : Option Nat :=
  match s.toList.reverse with
  | c :: ds => if c = '%' then parseNat ds.reverse else none
  | [] => none

/-- Reads one entry `"n/d": "p%"` of a size mapping as `(n, d, p)`. -/
def parseSizeEntry (e : String × JSValue) : Option (Nat × Nat × Nat) :=
  match parseFraction e.1, e.2.asString.bind parsePercent with
  | some (n, d), some p => some (n, d, p)
  | _, _ => none

/-! ## Serialisation and parsing

The serialised form of a record of strings, arrays and objects is its JSON
text, as produced by `JSON.stringify` and read back by `JSON.parse`. -/

namespace JSON

/-- The lower-case hexadecimal digit of a number below sixteen. -/
def hexDigit (n : Nat) : Char :=
  if n < 10 then Char.ofNat (48 + n) else Char.ofNat (87 + n)

/-- The JSON text of one character of a string. -/
def escapeChar (c : Char) : List Char :=
  if c = '"' then ['\\', '"']
  else if c = '\\' then ['\\', '\\']
  else if c = '\n' then ['\\', 'n']
  else if c = '\r' then ['\\', 'r']
  else if c = '\t' then ['\\', 't']
  else if c.toNat = 8 then ['\\', 'b']
  else if c.toNat = 12 then ['\\', 'f']
  else if c.toNat < 32 then
    ['\\', 'u', '0', '0', hexDigit (c.toNat / 16), hexDigit (c.toNat % 16)]
  else [c]

/-- The JSON text of a string: its escaped characters between quotes. -/
def quote (s : String) : List Char :=
  '"' :: (s.toList.flatMap escapeChar ++ ['"'])

mutual
/-- The characters of the JSON text of a value. -/
def stringifyValue : JSValue → List Char
  | str s => quote s
  | arr items => '[' :: (stringifyItems items ++ [']'])
  | obj fields => '{' :: (stringifyFields fields ++ ['}'])
/-- The elements of an array, separated by commas. -/
def stringifyItems : List JSValue → List Char
  | [] => []
  | v :: rest =>
    match rest with
    | [] => stringifyValue v
    | _ :: _ => stringifyValue v ++ ',' :: stringifyItems rest
/-- The members of an object, separated by commas. -/
def stringifyFields : List (String × JSValue) → List Char
  | [] => []
  | (k, v) :: rest =>
    match rest with
    | [] => quote k ++ ':' :: stringifyValue v
    | _ :: _ => quote k ++ ':' :: (stringifyValue v ++ ',' :: stringifyFields rest)
end

/-- The JSON text of the object structure that a value denotes. -/
def stringify (v : JSValue) : String :=
  String.mk (stringifyValue (evalLiteral v))

/-- Drops leading JSON white space. -/
def skipWs : List Char → List Char
  | [] => []
  | c :: rest =>
    if c = ' ' ∨ c = '\n' ∨ c = '\r' ∨ c = '\t' then skipWs rest else c :: rest

/-- The value of a hexadecimal digit. -/
def hexValue (c : Char) : Option Nat :=
  if '0' ≤ c ∧ c ≤ '9' then some (c.toNat - 48)
  else if 'a' ≤ c ∧ c ≤ 'f' then some (c.toNat - 87)
  else if 'A' ≤ c ∧ c ≤ 'F' then some (c.toNat - 55)
  else none

/-- The character denoted by the four hexadecimal digits of a `\u` escape. -/
def unicodeEscape (a b c d : Char) : Option Char :=
  match hexValue a, hexValue b, hexValue c, hexValue d with
  | some w, some x, some y, some z =>
    if h : (((w * 16 + x) * 16 + y) * 16 + z).isValidChar then
      some (Char.ofNatAux (((w * 16 + x) * 16 + y) * 16 + z) h)
    else none
  | _, _, _, _ => none

/-- The character denoted by a single-letter escape. -/
def simpleEscape (e : Char) : Option Char :=
  if e = '"' then some '"'
  else if e = '\\' then some '\\'
  else if e = '/' then some '/'
  else if e = 'n' then some '\n'
  else if e = 'r' then some '\r'
  else if e = 't' then some '\t'
  else if e = 'b' then some (Char.ofNat 8)
  else if e = 'f' then some (Char.ofNat 12)
  else none

/-- Reads the rest of a string after its opening quote; `acc` holds the
characters read so far, last one first. -/
def parseStringBody : Nat → List Char → List Char → Option (String × List Char)
  | 0, _, _ => none
  | _ + 1, [], _ => none
  | fuel + 1, c :: rest, acc =>
    if c = '"' then some (String.mk acc.reverse, rest)
    else if c = '\\' then
      match rest with
      | [] => none
      | e :: rest1 =>
        if e = 'u' then
          match rest1 with
          | h1 :: h2 :: h3 :: h4 :: rest2 =>
            match unicodeEscape h1 h2 h3 h4 with
            | some ch => parseStringBody fuel rest2 (ch :: acc)
            | none => none
          | _ => none
        else
          match simpleEscape e with
          | some ch => parseStringBody fuel rest1 (ch :: acc)
          | none => none
    else if c.toNat < 32 then none
    else parseStringBody fuel rest (c :: acc)

/-- Reads a string starting at its opening quote. -/
def parseString (cs : List Char) : Option (String × List Char) :=
  match cs with
  | c :: rest => if c = '"' then parseStringBody (rest.length + 1) rest [] else none
  | [] => none

mutual
/-- Reads one value. Numbers and the literals `true`, `false` and `null` have
no counterpart in `JSValue` and are not accepted. -/
def parseValue : Nat → List Char → Option (JSValue × List Char)
  | 0, _ => none
  | fuel + 1, cs =>
    match skipWs cs with
    | [] => none
    | c :: rest =>
      if c = '"' then
        match parseString (c :: rest) with
        | some (s, r) => some (str s, r)
        | none => none
      else if c = '[' then
        match skipWs rest with
        | [] => none
        | c2 :: r =>
          if c2 = ']' then some (arr [], r)
          else
            match parseElements fuel (c2 :: r) with
            | some (items, r1) => some (arr items, r1)
            | none => none
      else if c = '{' then
        match skipWs rest with
        | [] => none
        | c2 :: r =>
          if c2 = '}' then some (obj [], r)
          else
            match parseMembers fuel (c2 :: r) with
            | some (fields, r1) => some (obj (normalizeFields fields), r1)
            | none => none
      else none
/-- Reads the elements of a non-empty array up to and including `]`. -/
def parseElements : Nat → List Char → Option (List JSValue × List Char)
  | 0, _ => none
  | fuel + 1, cs =>
    match parseValue fuel cs with
    | none => none
    | some (v, r) =>
      match skipWs r with
      | [] => none
      | c :: r1 =>
        if c = ',' then
          match parseElements fuel r1 with
          | some (vs, r2) => some (v :: vs, r2)
          | none => none
        else if c = ']' then some ([v], r1)
        else none
/-- Reads the members of a non-empty object up to and including `}`. -/
def parseMembers : Nat → List Char → Option (List (String × JSValue) × List Char)
  | 0, _ => none
  | fuel + 1, cs =>
    match parseString (skipWs cs) with
    | none => none
    | some (k, r) =>
      match skipWs r with
      | [] => none
      | c :: r1 =>
        if c = ':' then
          match parseValue fuel r1 with
          | none => none
          | some (v, r2) =>
            match skipWs r2 with
            | [] => none
            | c2 :: r3 =>
              if c2 = ',' then
                match parseMembers fuel r3 with
                | some (fs, r4) => some ((k, v) :: fs, r4)
                | none => none
              else if c2 = '}' then some ([(k, v)], r3)
              else none
        else none
end

/-- Reads a JSON text as one value followed only by white space. -/
def parse (s : String) : Option JSValue :=
  match parseValue (s.length + 1) s.toList with
  | some (v, rest) => if (skipWs rest).isEmpty then some v else none
  | none => none

end JSON

end TailwindConfig

open TailwindConfig TailwindConfig.JSValue

/-! ## Lookups in the record -/

/-- C1: in the exported record, the suffix "1/4" of `theme.extend.maxWidth`
resolves to "25%", and the `maxWidth` extension is exactly the three-entry
mapping "1/4" -> "25%", "1/2" -> "50%", "3/4" -> "75%". -/
theorem maxWidth_quarter_and_entries :
    exports.getPath ["theme", "extend", "maxWidth", "1/4"] = some (str "25%") ∧
    exports.getPath ["theme", "extend", "maxWidth"]
      = some (obj [("1/4", str "25%"), ("1/2", str "50%"), ("3/4", str "75%")]) ∧
    exports.getPath ["theme", "extend", "maxWidth", "1/2"] = some (str "50%") ∧
    exports.getPath ["theme", "extend", "maxWidth", "3/4"] = some (str "75%") :=
  ⟨rfl, rfl, rfl, rfl⟩

/-- C2: in the exported record, the variant override of "overflow" is the
ordered sequence ["hover", "group-hover"], which contains "hover", and the
override of "visibility" is the same sequence. -/
theorem variants_overflow_visibility :
    ∃ vs, exports.getPath ["variants", "overflow"] = some (arr vs) ∧
      vs = [str "hover", str "group-hover"] ∧ str "hover" ∈ vs ∧
      exports.getPath ["variants", "visibility"] = some (arr vs) :=
  ⟨[str "hover", str "group-hover"], rfl, rfl, List.mem_cons_self _ _, rfl⟩

/-- C3: for every group name other than "overflow" and "visibility", the
variant-override lookup in the exported record yields no entry. -/
theorem variants_other_group_none (g : String)
    (h₁ : g ≠ "overflow") (h₂ : g ≠ "visibility") :
    exports.getPath ["variants", g] = none := by
  have e₁ : ¬ ("overflow" = g) := fun h => h₁ h.symm
  have e₂ : ¬ ("visibility" = g) := fun h => h₂ h.symm
  show JSValue.getPath (obj [("overflow", arr [str "hover", str "group-hover"]),
    ("visibility", arr [str "hover", str "group-hover"])]) [g] = none
  simp [getPath, JSValue.get, lookup, e₁, e₂]

/-- Witness for C3 at the group name "display". -/
theorem variants_other_group_none_witness :
    "display" ≠ "overflow" ∧ "display" ≠ "visibility" ∧
    exports.getPath ["variants", "display"] = none :=
  ⟨by decide, by decide, variants_other_group_none "display" (by decide) (by decide)⟩

/-! ## Content sources and theme extensions -/

/-- C4: the content-source pattern list `content.files` of the exported record
is exactly ["./**/*.rs"]; it is non-empty, and every entry is a non-empty
string that is a syntactically valid glob pattern. -/
theorem content_files_valid_globs :
    ∃ files, exports.getPath ["content", "files"] = some (arr files) ∧
      files = [str "./**/*.rs"] ∧ files ≠ [] ∧
      ∀ f ∈ files, ∃ s, f = str s ∧ s ≠ "" ∧ isValidGlob s = true := by
  refine ⟨[str "./**/*.rs"], rfl, rfl, by simp, ?_⟩
  intro f hf
  rw [List.mem_singleton] at hf
  exact ⟨"./**/*.rs", hf, by decide, by decide⟩

/-- Witness for C4 at the entry "./**/*.rs". -/
theorem content_files_valid_globs_witness :
    ∃ s, str "./**/*.rs" = str s ∧ s ≠ "" ∧ isValidGlob s = true := by
  obtain ⟨files, _, hfiles, _, hall⟩ := content_files_valid_globs
  exact hall (str "./**/*.rs") (by rw [hfiles]; exact List.mem_singleton.mpr rfl)

/-- C5: every category under `theme.extend` in the exported record holds a
non-empty mapping, and every value of that mapping is a size expression: a
non-empty run of decimal digits followed by "%". -/
theorem theme_extend_values_are_sizes :
    ∃ cats, exports.getPath ["theme", "extend"] = some (obj cats) ∧
      cats.map Prod.fst = ["maxWidth"] ∧
      ∀ e ∈ cats, ∃ fs, e.2 = obj fs ∧ fs ≠ [] ∧
        ∀ x ∈ fs, ∃ s, x.2 = str s ∧ isPercentage s = true := by
  refine ⟨_, rfl, rfl, ?_⟩
  intro e he
  rw [List.mem_singleton] at he
  subst he
  refine ⟨_, rfl, by simp, ?_⟩
  intro x hx
  simp only [List.mem_cons, List.mem_singleton, List.not_mem_nil, or_false] at hx
  rcases hx with rfl | rfl | rfl
  · exact ⟨"25%", rfl, by decide⟩
  · exact ⟨"50%", rfl, by decide⟩
  · exact ⟨"75%", rfl, by decide⟩

/-- Witness for C5 at the category `maxWidth`. -/
theorem theme_extend_values_are_sizes_witness :
    ∃ fs, obj [("1/4", str "25%"), ("1/2", str "50%"), ("3/4", str "75%")] = obj fs ∧
      fs ≠ [] ∧ ∀ x ∈ fs, ∃ s, x.2 = str s ∧ isPercentage s = true := by
  obtain ⟨cats, hcats, _, hall⟩ := theme_extend_values_are_sizes
  have hc : cats = [("maxWidth",
      obj [("1/4", str "25%"), ("1/2", str "50%"), ("3/4", str "75%")])] := by
    have h : some (obj cats) = some (obj [("maxWidth",
      obj [("1/4", str "25%"), ("1/2", str "50%"), ("3/4", str "75%")])]) := hcats.symm
    injection h with h
    injection h
  exact hall ("maxWidth", obj [("1/4", str "25%"), ("1/2", str "50%"), ("3/4", str "75%")])
    (by rw [hc]; exact List.mem_singleton.mpr rfl)

/-! ## Serialisation round trip -/

/-- The literal of the record is its own object structure: no key is
written twice and no key is an array index. -/
theorem evalLiteral_exports : evalLiteral exports = exports := by
  rfl

set_option maxRecDepth 100000 in
/-- C6: serialising the exported record and parsing the text again yields the
record itself, and serialising and parsing that result a second time yields
the same record again. -/
theorem exports_serialise_parse_roundtrip :
    JSON.stringify exports
      = "\x7b\"content\":\x7b\"files\":[\"./**/*.rs\"]\x7d,\"theme\":\x7b\"extend\":\x7b\"maxWidth\":\x7b\"1/4\":\"25%\",\"1/2\":\"50%\",\"3/4\":\"75%\"\x7d\x7d\x7d,\"plugins\":[],\"variants\":\x7b\"overflow\":[\"hover\",\"group-hover\"],\"visibility\":[\"hover\",\"group-hover\"]\x7d\x7d" ∧
    JSON.parse (JSON.stringify exports) = some exports ∧
    (JSON.parse (JSON.stringify exports)).bind (fun v => JSON.parse (JSON.stringify v))
      = some exports :=
  ⟨by decide, by rfl, by rfl⟩

/-! ## Keys of the mappings -/

/-- C8: the mappings of the exported record are the top-level record,
`content`, `theme`, `theme.extend`, `theme.extend.maxWidth` and `variants`,
and in each of them the keys are pairwise distinct. -/
theorem mapping_keys_pairwise_distinct :
    exports.mappingPaths
      = [[], ["content"], ["theme"], ["theme", "extend"],
         ["theme", "extend", "maxWidth"], ["variants"]] ∧
    ∀ p ∈ exports.mappingPaths, ∃ fs, exports.getPath p = some (obj fs) ∧
      (fs.map Prod.fst).Pairwise (· ≠ ·) := by
  have hp : exports.mappingPaths
      = [[], ["content"], ["theme"], ["theme", "extend"],
         ["theme", "extend", "maxWidth"], ["variants"]] := by decide
  refine ⟨hp, ?_⟩
  intro p hmem
  rw [hp] at hmem
  simp only [List.mem_cons, List.mem_singleton, List.not_mem_nil, or_false] at hmem
  rcases hmem with rfl | rfl | rfl | rfl | rfl | rfl
  all_goals exact ⟨_, rfl, by decide⟩

/-- Witness for C8 at the mapping `theme.extend.maxWidth`. -/
theorem mapping_keys_pairwise_distinct_witness :
    ∃ fs, exports.getPath ["theme", "extend", "maxWidth"] = some (obj fs) ∧
      (fs.map Prod.fst).Pairwise (· ≠ ·) :=
  mapping_keys_pairwise_distinct.2 ["theme", "extend", "maxWidth"]
    (by rw [mapping_keys_pairwise_distinct.1]; decide)

/-- C9: the key `maxWidth` occurs in the exported record only at
`theme.extend.maxWidth`; `theme` has the single key `extend`, so there is no
`theme.maxWidth` and no other key directly under `theme`. -/
theorem maxWidth_only_under_extend :
    exports.keyPaths "maxWidth" = [["theme", "extend", "maxWidth"]] ∧
    (∃ t, exports.getPath ["theme"] = some t ∧ t.keys = ["extend"]) ∧
    exports.getPath ["theme", "maxWidth"] = none ∧
    ∀ k : String, k ≠ "extend" → exports.getPath ["theme", k] = none := by
  refine ⟨by decide, ⟨_, rfl, rfl⟩, rfl, ?_⟩
  intro k hk
  have e : ¬ ("extend" = k) := fun h => hk h.symm
  show JSValue.getPath (obj [("extend", obj [("maxWidth",
    obj [("1/4", str "25%"), ("1/2", str "50%"), ("3/4", str "75%")])])]) [k] = none
  simp [getPath, JSValue.get, lookup, e]

/-- Witness for C9 at the key "colors". -/
theorem maxWidth_only_under_extend_witness :
    "colors" ≠ "extend" ∧ exports.getPath ["theme", "colors"] = none :=
  ⟨by decide, maxWidth_only_under_extend.2.2.2 "colors" (by decide)⟩

/-! ## Fractions and percentages -/

/-- C10: every entry of `theme.extend.maxWidth` has a suffix "n/d" with
positive n and d and a value "p%" with p * d = 100 * n (the entries read as
1/4 -> 25, 1/2 -> 50, 3/4 -> 75), and between any two entries the percentage
is smaller exactly when the fraction is smaller. -/
theorem maxWidth_values_match_fractions :
    ∃ fs, exports.getPath ["theme", "extend", "maxWidth"] = some (obj fs) ∧
      fs.map parseSizeEntry = [some (1, 4, 25), some (1, 2, 50), some (3, 4, 75)] ∧
      (∀ e ∈ fs, ∃ n d p, parseSizeEntry e = some (n, d, p) ∧
        0 < n ∧ 0 < d ∧ p * d = 100 * n) ∧
      (∀ e₁ ∈ fs, ∀ e₂ ∈ fs, ∀ n₁ d₁ p₁ n₂ d₂ p₂,
        parseSizeEntry e₁ = some (n₁, d₁, p₁) → parseSizeEntry e₂ = some (n₂, d₂, p₂) →
        (n₁ * d₂ < n₂ * d₁ ↔ p₁ < p₂)) := by
  have h₁ : parseSizeEntry ("1/4", str "25%") = some (1, 4, 25) := by decide
  have h₂ : parseSizeEntry ("1/2", str "50%") = some (1, 2, 50) := by decide
  have h₃ : parseSizeEntry ("3/4", str "75%") = some (3, 4, 75) := by decide
  refine ⟨_, rfl, ?_, ?_, ?_⟩
  · simp only [List.map, h₁, h₂, h₃]
  · intro e he
    simp only [List.mem_cons, List.mem_singleton, List.not_mem_nil, or_false] at he
    rcases he with rfl | rfl | rfl
    · exact ⟨1, 4, 25, h₁, by decide, by decide, by decide⟩
    · exact ⟨1, 2, 50, h₂, by decide, by decide, by decide⟩
    · exact ⟨3, 4, 75, h₃, by decide, by decide, by decide⟩
  · intro e₁ he₁ e₂ he₂ n₁ d₁ p₁ n₂ d₂ p₂ hp₁ hp₂
    simp only [List.mem_cons, List.mem_singleton, List.not_mem_nil, or_false] at he₁ he₂
    rcases he₁ with rfl | rfl | rfl <;> rcases he₂ with rfl | rfl | rfl <;>
      simp only [h₁, h₂, h₃, Option.some.injEq, Prod.mk.injEq] at hp₁ hp₂ <;>
      obtain ⟨rfl, rfl, rfl⟩ := hp₁ <;> obtain ⟨rfl, rfl, rfl⟩ := hp₂ <;> decide

/-- Witness for C10 at the entry "3/4" -> "75%". -/
theorem maxWidth_values_match_fractions_witness :
    ∃ n d p, parseSizeEntry ("3/4", str "75%") = some (n, d, p) ∧
      0 < n ∧ 0 < d ∧ p * d = 100 * n := by
  obtain ⟨fs, hfs, _, hall, _⟩ := maxWidth_values_match_fractions
  have hc : fs = [("1/4", str "25%"), ("1/2", str "50%"), ("3/4", str "75%")] := by
    have h : some (obj fs)
        = some (obj [("1/4", str "25%"), ("1/2", str "50%"), ("3/4", str "75%")]) :=
      hfs.symm
    injection h with h
    injection h
  exact hall ("3/4", str "75%") (by rw [hc]; simp)
